import Mathlib

/-!
Shallow embedding of the EloTracker repository (`src/elo_tracker/storage.py`
and `src/elo_tracker/cli.py`).

Modelling conventions:
* Python `datetime.date` values become `PyDate` (year/month/day as `Nat`),
  with Python's validity check (`date(...)` constructor) as `PyDate.isValid`.
* Python `str` becomes Lean `String`; Python string comparison (code-point
  lexicographic) is modelled explicitly by `charsLt` / `charsLe` over the
  character lists, because the repository sorts date keys with `sorted(...)`.
* Python `int` becomes `Int` (arbitrary precision in both).
* A Python `dict` becomes an insertion-ordered association list; key
  uniqueness is an invariant (`EloData.WF`), not enforced by the type.
* The JSON file is modelled at the level of its parsed object, plus a
  byte-level renderer `jsonText` reproducing `json.dump(..., indent=2,
  sort_keys=True)` for these objects.
-/

namespace EloTracker

/-- Gregorian date, modelling Python `datetime.date` (fields `year`, `month`,
`day`). -/
structure PyDate where
  year : Nat
  month : Nat
  day : Nat
deriving DecidableEq, Repr

/-- Python `datetime._is_leap`: `year % 4 == 0 and (year % 100 != 0 or year %
400 == 0)`. -/
def isLeap (y : Nat) : Bool :=
  y % 4 == 0 && (y % 100 != 0 || y % 400 == 0)

/-- Python `datetime._days_in_month`: table `[31,28,31,30,31,30,31,31,30,31,
30,31]` with February adjusted for leap years. Months outside 1..12 are mapped
to 0 (Python validates the month before the table lookup). -/
def daysInMonth (y m : Nat) : Nat :=
  match m with
  | 1 => 31
  | 2 => if isLeap y then 29 else 28
  | 3 => 31
  | 4 => 30
  | 5 => 31
  | 6 => 30
  | 7 => 31
  | 8 => 31
  | 9 => 30
  | 10 => 31
  | 11 => 30
  | 12 => 31
  | _ => 0

/-- Validity check of the Python `date` constructor: `MINYEAR <= year <=
MAXYEAR`, `1 <= month <= 12`, `1 <= day <= days_in_month(year, month)`. -/
def PyDate.isValid (d : PyDate) : Bool :=
  1 ≤ d.year && d.year ≤ 9999 && 1 ≤ d.month && d.month ≤ 12 &&
    1 ≤ d.day && d.day ≤ daysInMonth d.year d.month

/-- Python `date.__le__`: dates compare lexicographically on
`(year, month, day)`. -/
def PyDate.le (a b : PyDate) : Bool :=
  a.year < b.year ||
    (a.year == b.year &&
      (a.month < b.month || (a.month == b.month && a.day ≤ b.day)))

/-- Python `date.__lt__`: strict lexicographic comparison on
`(year, month, day)`. -/
def PyDate.lt (a b : PyDate) : Bool :=
  a.year < b.year ||
    (a.year == b.year &&
      (a.month < b.month || (a.month == b.month && a.day < b.day)))

/-- The calendar day before `d` (for valid dates after 0001-01-01). -/
def prevDay (d : PyDate) : PyDate :=
  if 1 < d.day then ⟨d.year, d.month, d.day - 1⟩
  else if 1 < d.month then ⟨d.year, d.month - 1, daysInMonth d.year (d.month - 1)⟩
  else ⟨d.year - 1, 12, 31⟩

/-- Python `d - timedelta(days=n)` for `n ≥ 0`: subtracting `n` days is `n`
applications of `prevDay` (Python computes the same result through ordinal
arithmetic). -/
def subDays (d : PyDate) (n : Nat) : PyDate :=
  Nat.iterate prevDay n d

/-- Decimal digit character: `digitChar k` is `'0'` … `'9'` for `k % 10`. -/
def digitChar (n : Nat) : Char :=
  Char.ofNat (48 + n % 10)

/-- Numeric value of a decimal digit character. -/
def digitVal (c : Char) : Nat :=
  c.toNat - 48

/-- Four-digit zero-padded decimal rendering (`%04d`). -/
def pad4 (n : Nat) : List Char :=
  [digitChar (n / 1000), digitChar (n / 100), digitChar (n / 10), digitChar n]

/-- Two-digit zero-padded decimal rendering (`%02d`). -/
def pad2 (n : Nat) : List Char :=
  [digitChar (n / 10), digitChar n]

/-- Python `date.isoformat()`: the string `YYYY-MM-DD`. -/
def PyDate.isoformat (d : PyDate) : String :=
  String.mk (pad4 d.year ++ '-' :: (pad2 d.month ++ '-' :: pad2 d.day))

/-- Core of `date.fromisoformat`: accept exactly ten characters
`YYYY-MM-DD`, then run the `date` constructor's validity check. -/
def fromIsoChars (cs : List Char) : Option PyDate :=
  match cs with
  | [y3, y2, y1, y0, h1, m1, m0, h2, d1, d0] =>
    if y3.isDigit && y2.isDigit && y1.isDigit && y0.isDigit && h1 == '-' &&
        m1.isDigit && m0.isDigit && h2 == '-' && d1.isDigit && d0.isDigit then
      let y := digitVal y3 * 1000 + digitVal y2 * 100 + digitVal y1 * 10 + digitVal y0
      let m := digitVal m1 * 10 + digitVal m0
      let d := digitVal d1 * 10 + digitVal d0
      if PyDate.isValid ⟨y, m, d⟩ then some ⟨y, m, d⟩ else none
    else none
  | _ => none

/-- Python `date.fromisoformat` (strict `YYYY-MM-DD` form, the only form the
repository produces or stores); `none` models the raised `ValueError`. -/
def PyDate.fromisoformat (s : String) : Option PyDate :=
  fromIsoChars s.data

theorem digitChar_toNat (n : Nat) : (digitChar n).toNat = 48 + n % 10 := by
  have h : n % 10 < 10 := Nat.mod_lt _ (by norm_num)
  have key : ∀ k < 10, (Char.ofNat (48 + k)).toNat = 48 + k := by decide
  exact key (n % 10) h

theorem digitChar_isDigit (n : Nat) : (digitChar n).isDigit = true := by
  have h : n % 10 < 10 := Nat.mod_lt _ (by norm_num)
  have key : ∀ k < 10, (Char.ofNat (48 + k)).isDigit = true := by decide
  exact key (n % 10) h

theorem digitVal_digitChar (n : Nat) : digitVal (digitChar n) = n % 10 := by
  simp [digitVal, digitChar_toNat]

theorem daysInMonth_le_31 (y m : Nat) : daysInMonth y m ≤ 31 := by
  unfold daysInMonth
  split <;> first | omega | (split <;> omega)

/-- Parsing inverts formatting on every valid date. -/
theorem fromisoformat_isoformat (d : PyDate) (h : d.isValid = true) :
    PyDate.fromisoformat d.isoformat = some d := by
  obtain ⟨y, m, dd⟩ := d
  have hday31 : dd ≤ 31 := by
    have h31 := daysInMonth_le_31 y m
    simp [PyDate.isValid] at h
    omega
  simp only [PyDate.isValid, Bool.and_eq_true, decide_eq_true_eq] at h
  unfold PyDate.fromisoformat PyDate.isoformat
  simp only [pad4, pad2, List.cons_append, List.nil_append]
  unfold fromIsoChars
  simp only [digitChar_isDigit, digitVal_digitChar, Bool.and_self, Bool.true_and,
    Bool.and_true, beq_self_eq_true, if_true]
  have hy : y / 1000 % 10 * 1000 + y / 100 % 10 * 100 + y / 10 % 10 * 10 + y % 10 = y := by
    omega
  have hm : m / 10 % 10 * 10 + m % 10 = m := by omega
  have hd : dd / 10 % 10 * 10 + dd % 10 = dd := by omega
  simp only [hy, hm, hd]
  have hvalid : PyDate.isValid ⟨y, m, dd⟩ = true := by
    simp only [PyDate.isValid, Bool.and_eq_true, decide_eq_true_eq]
    exact h
  simp [hvalid]

theorem char_eq_of_toNat_eq {a b : Char} (h : a.toNat = b.toNat) : a = b :=
  Char.eq_of_val_eq (UInt32.ext h)

/-- Python `str.__lt__` on the underlying characters: lexicographic comparison
by Unicode code point. -/
def charsLt : List Char → List Char → Bool
  | [], [] => false
  | [], _ :: _ => true
  | _ :: _, [] => false
  | a :: as, b :: bs =>
    if a.toNat < b.toNat then true
    else if b.toNat < a.toNat then false
    else charsLt as bs

/-- Python `str.__le__` on the underlying characters. -/
def charsLe : List Char → List Char → Bool
  | [], _ => true
  | _ :: _, [] => false
  | a :: as, b :: bs =>
    if a.toNat < b.toNat then true
    else if b.toNat < a.toNat then false
    else charsLe as bs

/-- Python string comparison `a < b` (code-point lexicographic). -/
def pyStrLt (a b : String) : Bool :=
  charsLt a.data b.data

/-- Python string comparison `a <= b` (code-point lexicographic); this is the
order used by Python `sorted` on the date keys. -/
def pyStrLe (a b : String) : Bool :=
  charsLe a.data b.data

theorem charsLe_total : ∀ as bs, (charsLe as bs || charsLe bs as) = true := by
  intro as
  induction as with
  | nil => intro bs; simp [charsLe]
  | cons a as ih =>
    intro bs
    cases bs with
    | nil => simp [charsLe]
    | cons b bs =>
      simp only [charsLe]
      rcases Nat.lt_trichotomy a.toNat b.toNat with h | h | h
      · simp [h]
      · simp [h, Nat.lt_irrefl, ih bs]
      · simp [h, Nat.lt_asymm h]

theorem charsLe_trans :
    ∀ as bs cs, charsLe as bs = true → charsLe bs cs = true → charsLe as cs = true := by
  intro as
  induction as with
  | nil => intro bs cs _ _; simp [charsLe]
  | cons a as ih =>
    intro bs cs hab hbc
    cases bs with
    | nil => simp [charsLe] at hab
    | cons b bs =>
      cases cs with
      | nil => simp [charsLe] at hbc
      | cons c cs =>
        simp only [charsLe] at hab hbc ⊢
        split_ifs at hab hbc ⊢ <;>
          first
          | rfl
          | omega
          | exact ih bs cs hab hbc

theorem charsLe_antisymm :
    ∀ as bs, charsLe as bs = true → charsLe bs as = true → as = bs := by
  intro as
  induction as with
  | nil =>
    intro bs _ hba
    cases bs with
    | nil => rfl
    | cons b bs => simp [charsLe] at hba
  | cons a as ih =>
    intro bs hab hba
    cases bs with
    | nil => simp [charsLe] at hab
    | cons b bs =>
      simp only [charsLe] at hab hba
      rcases Nat.lt_trichotomy a.toNat b.toNat with h | h | h
      · simp [h, Nat.lt_asymm h] at hba
      · have ha : a = b := char_eq_of_toNat_eq h
        subst ha
        simp [Nat.lt_irrefl] at hab hba
        rw [ih bs hab hba]
      · simp [h, Nat.lt_asymm h] at hab

theorem string_eq_of_data_eq {a b : String} (h : a.data = b.data) : a = b := by
  cases a; cases b; simp_all

theorem pyStrLe_total (a b : String) : (pyStrLe a b || pyStrLe b a) = true :=
  charsLe_total a.data b.data

theorem pyStrLe_trans {a b c : String} (h1 : pyStrLe a b = true)
    (h2 : pyStrLe b c = true) : pyStrLe a c = true :=
  charsLe_trans a.data b.data c.data h1 h2

theorem pyStrLe_antisymm {a b : String} (h1 : pyStrLe a b = true)
    (h2 : pyStrLe b a = true) : a = b :=
  string_eq_of_data_eq (charsLe_antisymm a.data b.data h1 h2)

theorem charsLt_asymm :
    ∀ as bs, charsLt as bs = true → charsLt bs as = true → False := by
  intro as
  induction as with
  | nil =>
    intro bs hab hba
    cases bs with
    | nil => simp [charsLt] at hab
    | cons b bs => simp [charsLt] at hba
  | cons a as ih =>
    intro bs hab hba
    cases bs with
    | nil => simp [charsLt] at hab
    | cons b bs =>
      simp only [charsLt] at hab hba
      rcases Nat.lt_trichotomy a.toNat b.toNat with h | h | h
      · simp [h, Nat.lt_asymm h] at hba
      · simp [h, Nat.lt_irrefl] at hab hba
        exact ih bs hab hba
      · simp [h, Nat.lt_asymm h] at hab

theorem charsLe_of_lt {as bs : List Char} (h : charsLt as bs = true) :
    charsLe as bs = true := by
  induction as generalizing bs with
  | nil => simp [charsLe]
  | cons a as ih =>
    cases bs with
    | nil => simp [charsLt] at h
    | cons b bs =>
      simp only [charsLt] at h
      simp only [charsLe]
      rcases Nat.lt_trichotomy a.toNat b.toNat with h1 | h1 | h1
      · simp [h1]
      · simp only [h1, Nat.lt_irrefl, if_false, if_neg (Nat.lt_irrefl _)] at h ⊢
        exact ih h
      · simp [Nat.lt_asymm h1, h1] at h

theorem charsLt_of_le_of_ne {as bs : List Char} (h : charsLe as bs = true)
    (hne : as ≠ bs) : charsLt as bs = true := by
  induction as generalizing bs with
  | nil =>
    cases bs with
    | nil => exact absurd rfl hne
    | cons b bs => simp [charsLt]
  | cons a as ih =>
    cases bs with
    | nil => simp [charsLe] at h
    | cons b bs =>
      simp only [charsLe] at h
      simp only [charsLt]
      rcases Nat.lt_trichotomy a.toNat b.toNat with h1 | h1 | h1
      · simp [h1]
      · have ha : a = b := char_eq_of_toNat_eq h1
        subst ha
        simp only [Nat.lt_irrefl, if_false, if_neg (Nat.lt_irrefl _)] at h ⊢
        exact ih h (by intro hh; exact hne (by rw [hh]))
      · simp [Nat.lt_asymm h1, h1] at h

/-- The `EloDay` dataclass from `storage.py`: a calendar date together with the
ordered list of Elo values ("sets") recorded on that day. -/
structure EloDay where
  date : PyDate
  sets : List Int
deriving DecidableEq, Repr

namespace EloDay

/-- Property `start`: `self.sets[0] if self.sets else None`. -/
def start (d : EloDay) : Option Int :=
  match d.sets with
  | [] => none
  | x :: _ => some x

/-- Property `end`: `self.sets[-1] if self.sets else None` (named `end_`
because `end` is a Lean keyword). -/
def end_ (d : EloDay) : Option Int :=
  d.sets.getLast?

/-- Property `change`: `None` when there are no sets, otherwise
`self.sets[-1] - self.sets[0]`. -/
def change (d : EloDay) : Option Int :=
  match d.sets with
  | [] => none
  | x :: xs => some ((x :: xs).getLast (List.cons_ne_nil x xs) - x)

/-- Property `best`: `max(self.sets) if self.sets else None`; Python `max`
over a nonempty list folds binary max over the elements. -/
def best (d : EloDay) : Option Int :=
  match d.sets with
  | [] => none
  | x :: xs => some (xs.foldl max x)

/-- Property `worst`: `min(self.sets) if self.sets else None`. -/
def worst (d : EloDay) : Option Int :=
  match d.sets with
  | [] => none
  | x :: xs => some (xs.foldl min x)

end EloDay

theorem foldl_max_spec (xs : List Int) (x : Int) :
    xs.foldl max x ∈ x :: xs ∧ ∀ y ∈ x :: xs, y ≤ xs.foldl max x := by
  induction xs generalizing x with
  | nil => simp
  | cons a as ih =>
    have ihm := (ih (max x a)).1
    have ihb := (ih (max x a)).2
    constructor
    · simp only [List.foldl_cons]
      rcases List.mem_cons.mp ihm with hm | hm
      · rcases max_choice x a with hc | hc <;> rw [hm, hc] <;> simp
      · simp [hm]
    · intro y hy
      simp only [List.foldl_cons]
      rcases List.mem_cons.mp hy with hy | hy
      · rw [hy]
        exact le_trans (le_max_left x a) (ihb _ (List.mem_cons_self _ _))
      · rcases List.mem_cons.mp hy with hy | hy
        · rw [hy]
          exact le_trans (le_max_right x a) (ihb _ (List.mem_cons_self _ _))
        · exact ihb y (List.mem_cons_of_mem _ hy)

theorem foldl_min_spec (xs : List Int) (x : Int) :
    xs.foldl min x ∈ x :: xs ∧ ∀ y ∈ x :: xs, xs.foldl min x ≤ y := by
  induction xs generalizing x with
  | nil => simp
  | cons a as ih =>
    have ihm := (ih (min x a)).1
    have ihb := (ih (min x a)).2
    constructor
    · simp only [List.foldl_cons]
      rcases List.mem_cons.mp ihm with hm | hm
      · rcases min_choice x a with hc | hc <;> rw [hm, hc] <;> simp
      · simp [hm]
    · intro y hy
      simp only [List.foldl_cons]
      rcases List.mem_cons.mp hy with hy | hy
      · rw [hy]
        exact le_trans (ihb _ (List.mem_cons_self _ _)) (min_le_left x a)
      · rcases List.mem_cons.mp hy with hy | hy
        · rw [hy]
          exact le_trans (ihb _ (List.mem_cons_self _ _)) (min_le_right x a)
        · exact ihb y (List.mem_cons_of_mem _ hy)

/-- C1: for every day record with a non-empty sets sequence `S`, the derived
statistics satisfy `start` = first element of `S`, `end` = last element of
`S`, `change = end - start`, `best = max S`, `worst = min S`; and each of the
five statistics is `None` if and only if `S` is empty. -/
theorem C1_day_statistics (dt : PyDate) (S : List Int) :
    ((⟨dt, S⟩ : EloDay).start = none ↔ S = []) ∧
    ((⟨dt, S⟩ : EloDay).end_ = none ↔ S = []) ∧
    ((⟨dt, S⟩ : EloDay).change = none ↔ S = []) ∧
    ((⟨dt, S⟩ : EloDay).best = none ↔ S = []) ∧
    ((⟨dt, S⟩ : EloDay).worst = none ↔ S = []) ∧
    ∀ h : S ≠ [],
      (⟨dt, S⟩ : EloDay).start = some (S.head h) ∧
      (⟨dt, S⟩ : EloDay).end_ = some (S.getLast h) ∧
      (⟨dt, S⟩ : EloDay).change = some (S.getLast h - S.head h) ∧
      (∃ b, (⟨dt, S⟩ : EloDay).best = some b ∧ b ∈ S ∧ ∀ x ∈ S, x ≤ b) ∧
      (∃ w, (⟨dt, S⟩ : EloDay).worst = some w ∧ w ∈ S ∧ ∀ x ∈ S, w ≤ x) := by
  cases S with
  | nil =>
    refine ⟨by simp [EloDay.start], by simp [EloDay.end_], by simp [EloDay.change],
      by simp [EloDay.best], by simp [EloDay.worst], ?_⟩
    intro h
    exact absurd rfl h
  | cons x xs =>
    refine ⟨by simp [EloDay.start], by simp [EloDay.end_], by simp [EloDay.change],
      by simp [EloDay.best], by simp [EloDay.worst], ?_⟩
    intro h
    refine ⟨rfl, ?_, rfl, ?_, ?_⟩
    · exact List.getLast?_eq_getLast _ h
    · exact ⟨(xs.foldl max x), rfl, (foldl_max_spec xs x).1, (foldl_max_spec xs x).2⟩
    · exact ⟨(xs.foldl min x), rfl, (foldl_min_spec xs x).1, (foldl_min_spec xs x).2⟩

/-- Witness for C1 at the spec's example: recording `[1500, 1550, 1490]` gives
`start = 1500`, `end = 1490`, `change = -10`, `best = 1550`, `worst = 1490`. -/
theorem C1_day_statistics_witness :
    (⟨⟨2024, 1, 10⟩, [1500, 1550, 1490]⟩ : EloDay).start = some 1500 ∧
    (⟨⟨2024, 1, 10⟩, [1500, 1550, 1490]⟩ : EloDay).end_ = some 1490 ∧
    (⟨⟨2024, 1, 10⟩, [1500, 1550, 1490]⟩ : EloDay).change = some (-10) ∧
    (∃ b, (⟨⟨2024, 1, 10⟩, [1500, 1550, 1490]⟩ : EloDay).best = some b ∧
      b ∈ [(1500 : Int), 1550, 1490] ∧ ∀ x ∈ [(1500 : Int), 1550, 1490], x ≤ b) := by
  have h := (C1_day_statistics ⟨2024, 1, 10⟩ [1500, 1550, 1490]).2.2.2.2.2
    (by decide)
  refine ⟨h.1, ?_, ?_, h.2.2.2.1⟩
  · have h2 := h.2.1
    simpa using h2
  · have h3 := h.2.2.1
    simpa using h3

/-- The order used by Python `sorted` on the date-key strings. -/
def strLeRel (a b : String) : Prop :=
  pyStrLe a b = true

/-- Ordering of dictionary entries by their string key (used to model
`json.dump(..., sort_keys=True)`, which writes the entries in key order). -/
def keyLeRel {β : Type} (a b : String × β) : Prop :=
  pyStrLe a.1 b.1 = true

instance : DecidableRel strLeRel := fun a b => by
  unfold strLeRel; infer_instance

instance {β : Type} : DecidableRel (keyLeRel (β := β)) := fun a b => by
  unfold keyLeRel; infer_instance

instance : IsTotal String strLeRel := by
  refine ⟨fun a b => ?_⟩
  have h := pyStrLe_total a b
  rcases Bool.or_eq_true_iff.mp h with h | h
  · exact Or.inl h
  · exact Or.inr h

instance : IsTrans String strLeRel :=
  ⟨fun _ _ _ h1 h2 => pyStrLe_trans h1 h2⟩

instance : IsAntisymm String strLeRel :=
  ⟨fun _ _ h1 h2 => pyStrLe_antisymm h1 h2⟩

instance {β : Type} : IsTotal (String × β) keyLeRel := by
  refine ⟨fun a b => ?_⟩
  have h := pyStrLe_total a.1 b.1
  rcases Bool.or_eq_true_iff.mp h with h | h
  · exact Or.inl h
  · exact Or.inr h

instance {β : Type} : IsTrans (String × β) keyLeRel :=
  ⟨fun _ _ _ h1 h2 => pyStrLe_trans h1 h2⟩

/-- The `EloData` dataclass from `storage.py`: the full history, a dict from
ISO date string to `EloDay`, modelled as an insertion-ordered association
list. -/
structure EloData where
  days : List (String × EloDay)
deriving DecidableEq, Repr

/-- Key uniqueness (a Python dict invariant) together with the invariant the
repository maintains for every store it builds: each key is the ISO format of
the record's own (valid) date. -/
def EloData.WF (d : EloData) : Prop :=
  (d.days.map Prod.fst).Nodup ∧
    ∀ kv ∈ d.days, kv.1 = kv.2.date.isoformat ∧ kv.2.date.isValid = true

instance (d : EloData) : Decidable d.WF := by
  unfold EloData.WF; infer_instance

/-- `EloData.to_json`: `{day: data.to_dict() for day, data in self.days.items()}`
with `to_dict` returning `{"sets": self.sets}`; a day object is represented by
its sets list. -/
def EloData.to_json (d : EloData) : List (String × List Int) :=
  d.days.map (fun kv => (kv.1, kv.2.sets))

/-- `EloData.sorted_days`: `[self.days[day] for day in sorted(self.days.keys())]`.
Python's `sorted` is a stable sort by string order, modelled by
`insertionSort` (also stable, hence extensionally identical); the `getD`
default is dead code standing for the impossible `KeyError` (every looked-up
key comes from the dict itself). -/
def EloData.sorted_days (d : EloData) : List EloDay :=
  (List.insertionSort strLeRel (d.days.map Prod.fst)).map
    (fun k => ((d.days.lookup k).getD ⟨⟨1, 1, 1⟩, []⟩))

/-- The loop body of `EloData.from_json`: parse each key with
`date.fromisoformat` (a failure raises, modelled by `none`) and rebuild the
day record; `EloDay.from_dict` takes `list(data.get("sets", []))`, which in
the typed object model is the sets list itself. -/
def fromJsonEntries : List (String × List Int) → Option (List (String × EloDay))
  | [] => some []
  | (k, sets) :: rest =>
    match PyDate.fromisoformat k with
    | none => none
    | some day =>
      match fromJsonEntries rest with
      | none => none
      | some tail => some ((k, ⟨day, sets⟩) :: tail)

/-- `EloData.from_json` on a well-typed JSON object. -/
def EloData.from_json (raw : List (String × List Int)) : Option EloData :=
  (fromJsonEntries raw).map EloData.mk

/-- The JSON object written by `save_data`: `json.dump(data.to_json(), f,
indent=2, sort_keys=True)` emits the entries in sorted key order. -/
def save_file (d : EloData) : List (String × List Int) :=
  List.insertionSort keyLeRel (EloData.to_json d)

/-- Object-level `load_data` (file-system side effects are modelled separately
for C10): a missing file yields an empty store, otherwise the parsed object is
fed to `EloData.from_json`. -/
def load_file (file : Option (List (String × List Int))) : Option EloData :=
  match file with
  | none => some ⟨[]⟩
  | some raw => EloData.from_json raw

/-- Byte-level rendering of the sets array inside a day object, nested two
levels deep, as `json.dump(..., indent=2)` prints it. -/
def setsText (sets : List Int) : String :=
  match sets with
  | [] => "[]"
  | _ => "[\n" ++ String.intercalate ",\n" (sets.map (fun n => "      " ++ toString n)) ++
      "\n    ]"

/-- Byte-level rendering of one `"YYYY-MM-DD": {"sets": [...]}` entry. -/
def dayText (kv : String × List Int) : String :=
  "  \"" ++ kv.1 ++ "\": \x7b\n    \"sets\": " ++ setsText kv.2 ++ "\n  \x7d"

/-- Byte-level rendering of the whole persisted JSON object, reproducing
`json.dump(obj, f, indent=2, sort_keys=True)` applied to an already key-sorted
object (date keys need no string escaping). -/
def jsonText (ob : List (String × List Int)) : String :=
  match ob with
  | [] => "\x7b\x7d"
  | _ => "\x7b\n" ++ String.intercalate ",\n" (ob.map dayText) ++ "\n\x7d"

theorem lookup_eq_of_mem_of_nodup {β : Type} :
    ∀ (l : List (String × β)) (kv : String × β),
      (l.map Prod.fst).Nodup → kv ∈ l → l.lookup kv.1 = some kv.2 := by
  intro l
  induction l with
  | nil => intro kv _ hm; simp at hm
  | cons hd tl ih =>
    intro kv hnd hm
    rw [List.map_cons] at hnd
    obtain ⟨hhd, htl⟩ := List.nodup_cons.mp hnd
    rcases List.mem_cons.mp hm with hm | hm
    · rw [hm]
      simp [List.lookup]
    · have hne : kv.1 ≠ hd.1 := by
        intro hh
        exact hhd (by
          rw [← hh]
          exact List.mem_map.mpr ⟨kv, hm, rfl⟩)
      have : (kv.1 == hd.1) = false := beq_eq_false_iff_ne.mpr hne
      simp only [List.lookup, this]
      exact ih kv htl hm

/-- Sorting the key list and indexing the dict (the source text of
`sorted_days`) agrees with sorting the entries by key and taking the values,
provided the keys are distinct. -/
theorem sorted_days_eq (d : EloData) (hnd : (d.days.map Prod.fst).Nodup) :
    d.sorted_days = (List.insertionSort keyLeRel d.days).map Prod.snd := by
  have hkeys :
      List.insertionSort strLeRel (d.days.map Prod.fst) =
        (List.insertionSort keyLeRel d.days).map Prod.fst := by
    apply List.eq_of_perm_of_sorted (r := strLeRel)
    · exact (List.perm_insertionSort _ _).trans
        ((List.perm_insertionSort keyLeRel d.days).map Prod.fst).symm
    · exact List.sorted_insertionSort _ _
    · have hs := List.sorted_insertionSort keyLeRel d.days
      exact List.pairwise_map.mpr hs
  unfold EloData.sorted_days
  rw [hkeys, List.map_map]
  apply List.map_congr_left
  intro kv hkv
  have hmem : kv ∈ d.days := (List.perm_insertionSort keyLeRel d.days).mem_iff.mp hkv
  simp [lookup_eq_of_mem_of_nodup d.days kv hnd hmem]

/-- Strict version of `keyLeRel`. -/
def keyLtRel {β : Type} (a b : String × β) : Prop :=
  pyStrLt a.1 b.1 = true

theorem pyStrLt_asymm {a b : String} (h1 : pyStrLt a b = true)
    (h2 : pyStrLt b a = true) : False :=
  charsLt_asymm a.data b.data h1 h2

theorem pyStrLt_of_le_of_ne {a b : String} (h : pyStrLe a b = true)
    (hne : a ≠ b) : pyStrLt a b = true :=
  charsLt_of_le_of_ne h (fun hd => hne (string_eq_of_data_eq hd))

instance {β : Type} : IsAntisymm (String × β) keyLtRel :=
  ⟨fun _ _ h1 h2 => (pyStrLt_asymm h1 h2).elim⟩

/-- A key-sorted entry list with distinct keys is sorted by the strict key
order. -/
theorem sorted_keyLt_of_sorted_keyLe {β : Type} {l : List (String × β)}
    (hs : List.Sorted keyLeRel l) (hnd : (l.map Prod.fst).Nodup) :
    List.Sorted keyLtRel l := by
  have hne : List.Pairwise (fun a b : String × β => a.1 ≠ b.1) l :=
    List.pairwise_map.mp hnd
  have hand := List.Pairwise.and hs hne
  refine hand.imp ?_
  intro a b hab
  exact pyStrLt_of_le_of_ne hab.1 hab.2

theorem keyLt_sorted_insertionSort {β : Type} {l : List (String × β)}
    (hnd : (l.map Prod.fst).Nodup) :
    List.Sorted keyLtRel (List.insertionSort keyLeRel l) := by
  apply sorted_keyLt_of_sorted_keyLe (List.sorted_insertionSort keyLeRel l)
  have hperm : ((List.insertionSort keyLeRel l).map Prod.fst).Perm (l.map Prod.fst) :=
    (List.perm_insertionSort keyLeRel l).map Prod.fst
  exact hperm.symm.nodup hnd

/-- Mapping each entry to its serialized form `(key, sets)` commutes with
sorting by key, given distinct keys. -/
theorem save_file_eq (d : EloData) (hnd : (d.days.map Prod.fst).Nodup) :
    save_file d =
      (List.insertionSort keyLeRel d.days).map (fun kv => (kv.1, kv.2.sets)) := by
  apply List.eq_of_perm_of_sorted (r := keyLtRel (β := List Int))
  · refine (List.perm_insertionSort _ _).trans ?_
    unfold EloData.to_json
    exact ((List.perm_insertionSort keyLeRel d.days).map _).symm
  · apply keyLt_sorted_insertionSort
    unfold EloData.to_json
    rw [List.map_map]
    have hfst : (Prod.fst ∘ fun kv : String × EloDay => (kv.1, kv.2.sets)) = Prod.fst := rfl
    rw [hfst]
    exact hnd
  · have hs := keyLt_sorted_insertionSort (β := EloDay) hnd
    apply List.pairwise_map.mpr
    exact hs.imp (fun hab => hab)

/-- Reconstruction: `from_json` applied to the serialized entries of a
well-formed entry list returns exactly that list. -/
theorem fromJsonEntries_map (l : List (String × EloDay))
    (h : ∀ kv ∈ l, kv.1 = kv.2.date.isoformat ∧ kv.2.date.isValid = true) :
    fromJsonEntries (l.map (fun kv => (kv.1, kv.2.sets))) = some l := by
  induction l with
  | nil => rfl
  | cons hd tl ih =>
    obtain ⟨k, day⟩ := hd
    have hhd := h (k, day) (List.mem_cons_self _ _)
    have htl : ∀ kv ∈ tl, kv.1 = kv.2.date.isoformat ∧ kv.2.date.isValid = true :=
      fun kv hkv => h kv (List.mem_cons_of_mem _ hkv)
    simp only [List.map_cons, fromJsonEntries]
    rw [show k = day.date.isoformat from hhd.1,
      fromisoformat_isoformat day.date hhd.2, ih htl]

/-- C2: for every well-formed store whose day records all have non-empty sets
sequences, serializing, loading the result, and serializing again yields a
store structurally equal to the original (same entries up to dictionary
order, hence the same key set, each key mapped to the same ordered sets
sequence) and byte-for-byte the same file content. -/
theorem C2_save_load_roundtrip (D : EloData) (hwf : D.WF)
    (_hne : ∀ kv ∈ D.days, kv.2.sets ≠ []) :
    ∃ D2, EloData.from_json (save_file D) = some D2 ∧
      D2.days.Perm D.days ∧
      (D2.days.map Prod.fst).Perm (D.days.map Prod.fst) ∧
      (∀ kv ∈ D.days, kv ∈ D2.days) ∧
      save_file D2 = save_file D ∧
      jsonText (save_file D2) = jsonText (save_file D) := by
  obtain ⟨hnd, hiso⟩ := hwf
  have hperm : (List.insertionSort keyLeRel D.days).Perm D.days :=
    List.perm_insertionSort _ _
  have hiso2 : ∀ kv ∈ List.insertionSort keyLeRel D.days,
      kv.1 = kv.2.date.isoformat ∧ kv.2.date.isValid = true :=
    fun kv hkv => hiso kv (hperm.mem_iff.mp hkv)
  have hsave : save_file D =
      (List.insertionSort keyLeRel D.days).map (fun kv => (kv.1, kv.2.sets)) :=
    save_file_eq D hnd
  have hsq : save_file ⟨List.insertionSort keyLeRel D.days⟩ = save_file D := by
    have hsorted2 :
        List.Sorted keyLeRel
          ((List.insertionSort keyLeRel D.days).map (fun kv => (kv.1, kv.2.sets))) := by
      apply List.pairwise_map.mpr
      exact (List.sorted_insertionSort keyLeRel D.days).imp (fun hab => hab)
    unfold save_file EloData.to_json
    rw [show (EloData.mk (List.insertionSort keyLeRel D.days)).days =
      List.insertionSort keyLeRel D.days from rfl]
    rw [List.Sorted.insertionSort_eq hsorted2]
    exact hsave.symm
  refine ⟨⟨List.insertionSort keyLeRel D.days⟩, ?_, hperm, hperm.map _,
    fun kv hkv => hperm.symm.mem_iff.mp hkv, hsq, congrArg jsonText hsq⟩
  rw [hsave]
  unfold EloData.from_json
  rw [fromJsonEntries_map _ hiso2]
  rfl

/-- Concrete two-day store used by several witnesses. -/
def exStore2 : EloData :=
  ⟨[("2024-01-10", ⟨⟨2024, 1, 10⟩, [1500, 1550]⟩),
    ("2024-01-09", ⟨⟨2024, 1, 9⟩, [1400]⟩)]⟩

/-- Witness for C2 at a concrete two-day store. -/
theorem C2_save_load_roundtrip_witness :
    ∃ D2, EloData.from_json (save_file exStore2) = some D2 ∧
      D2.days.Perm exStore2.days ∧
      (D2.days.map Prod.fst).Perm (exStore2.days.map Prod.fst) ∧
      (∀ kv ∈ exStore2.days, kv ∈ D2.days) ∧
      save_file D2 = save_file exStore2 ∧
      jsonText (save_file D2) = jsonText (save_file exStore2) :=
  C2_save_load_roundtrip exStore2 (by constructor <;> decide) (by decide)

/-- Python `str.ljust`: pad on the right with spaces up to the column width
(no change when the string is already at least that wide). -/
def ljust (s : String) (w : Nat) : String :=
  s ++ String.mk (List.replicate (w - s.length) ' ')

/-- One pass of the width loop in `render_table`:
`for idx, value in enumerate(row): col_widths[idx] = max(col_widths[idx],
len(value))`. A row longer than the width list would raise `IndexError` in
Python; the truncating clause is dead code under the claims' equal-length
hypothesis. -/
def updWidths : List Nat → List String → List Nat
  | ws, [] => ws
  | [], _ :: _ => []
  | w :: ws, c :: cs => max w c.length :: updWidths ws cs

/-- `col_widths` after the row loop, starting from the header lengths. -/
def colWidths (headers : List String) (rows : List (List String)) : List Nat :=
  rows.foldl updWidths (headers.map String.length)

/-- `format_row` from `render_table`: left-justify every cell to its column
width and join with " | ". -/
def format_row (widths : List Nat) (row : List String) : String :=
  String.intercalate " | " (List.zipWith ljust row widths)

/-- `render_table` from `cli.py`: header line, dash separator joined with
"-+-", body lines; when there are no body lines, just the header line. -/
def render_table (headers : List String) (rows : List (List String)) : String :=
  let widths := colWidths headers rows
  let header_line := format_row widths headers
  let separator :=
    String.intercalate "-+-" (widths.map (fun w => String.mk (List.replicate w '-')))
  let body_lines := rows.map (format_row widths)
  if body_lines.isEmpty then header_line
  else String.intercalate "\n" (header_line :: separator :: body_lines)

theorem updWidths_length (ws : List Nat) (r : List String)
    (h : r.length ≤ ws.length) : (updWidths ws r).length = ws.length := by
  induction ws generalizing r with
  | nil =>
    cases r with
    | nil => rfl
    | cons c cs => simp at h
  | cons w ws ih =>
    cases r with
    | nil => rfl
    | cons c cs =>
      simp only [updWidths, List.length_cons]
      rw [ih cs (by simpa using h)]

theorem updWidths_getD (ws : List Nat) (r : List String) (i : Nat)
    (hi : i < r.length) (h : r.length ≤ ws.length) :
    (updWidths ws r).getD i 0 = max (ws.getD i 0) ((r.getD i "").length) := by
  induction ws generalizing r i with
  | nil =>
    cases r with
    | nil => simp at hi
    | cons c cs => simp at h
  | cons w ws ih =>
    cases r with
    | nil => simp at hi
    | cons c cs =>
      cases i with
      | zero => simp [updWidths]
      | succ j =>
        simp only [updWidths, List.getD_cons_succ]
        exact ih cs j (by simpa using hi) (by simpa using h)

theorem updWidths_getD_of_ge (ws : List Nat) (r : List String) (i : Nat)
    (hi : r.length ≤ i) : (updWidths ws r).getD i 0 = ws.getD i 0 := by
  induction ws generalizing r i with
  | nil =>
    cases r with
    | nil => rfl
    | cons c cs => rfl
  | cons w ws ih =>
    cases r with
    | nil => rfl
    | cons c cs =>
      cases i with
      | zero => simp at hi
      | succ j =>
        simp only [updWidths, List.getD_cons_succ]
        exact ih cs j (by simpa using hi)

theorem foldl_updWidths_spec :
    ∀ (rows : List (List String)) (ws : List Nat),
      (∀ r ∈ rows, r.length = ws.length) →
      (rows.foldl updWidths ws).length = ws.length ∧
      ∀ i < ws.length,
        (rows.foldl updWidths ws).getD i 0 =
          max (ws.getD i 0) ((rows.map (fun r => (r.getD i "").length)).foldr max 0) := by
  intro rows
  induction rows with
  | nil =>
    intro ws _
    refine ⟨rfl, ?_⟩
    intro i _
    simp
  | cons r rs ih =>
    intro ws h
    have hr : r.length = ws.length := h r (List.mem_cons_self _ _)
    have hlen : (updWidths ws r).length = ws.length := updWidths_length ws r (le_of_eq hr)
    have hrs : ∀ q ∈ rs, q.length = (updWidths ws r).length := by
      intro q hq
      rw [hlen]
      exact h q (List.mem_cons_of_mem _ hq)
    obtain ⟨ihlen, ihget⟩ := ih (updWidths ws r) hrs
    refine ⟨by rw [List.foldl_cons, ihlen, hlen], ?_⟩
    intro i hi
    rw [List.foldl_cons, ihget i (by rw [hlen]; exact hi)]
    rw [updWidths_getD ws r i (by rw [hr]; exact hi) (le_of_eq hr)]
    simp [Nat.max_assoc]

theorem getD_map_length (l : List String) (i : Nat) (hi : i < l.length) :
    (l.map String.length).getD i 0 = (l.getD i "").length := by
  induction l generalizing i with
  | nil => simp at hi
  | cons a as ih =>
    cases i with
    | zero => rfl
    | succ j =>
      simp only [List.map_cons, List.getD_cons_succ]
      exact ih j (by simpa using hi)

theorem ljust_self (s : String) : ljust s s.length = s := by
  unfold ljust
  simp only [Nat.sub_self, List.replicate_zero]
  apply string_eq_of_data_eq
  simp [String.data_append]

theorem zipWith_ljust_self (l : List String) :
    List.zipWith ljust l (l.map String.length) = l := by
  induction l with
  | nil => rfl
  | cons a as ih =>
    simp only [List.map_cons, List.zipWith_cons_cons, ih, ljust_self]

/-- C8: with cell counts matching the header count, every column width is the
maximum of the header length and the cell lengths in that column; every cell
is left-justified to its column width and columns are joined with " | "; the
separator row is dashes per column joined with "-+-"; and with zero data rows
the result is exactly the formatted header line, with no separator and no
body. -/
theorem C8_render_table (headers : List String) (rows : List (List String))
    (h : ∀ r ∈ rows, r.length = headers.length) :
    (colWidths headers rows).length = headers.length ∧
    (∀ i < headers.length,
      (colWidths headers rows).getD i 0 =
        max (headers.getD i "").length
          ((rows.map (fun r => (r.getD i "").length)).foldr max 0)) ∧
    render_table headers [] = String.intercalate " | " headers ∧
    (rows ≠ [] →
      render_table headers rows =
        String.intercalate "\n"
          (String.intercalate " | "
              (List.zipWith ljust headers (colWidths headers rows)) ::
            String.intercalate "-+-"
              ((colWidths headers rows).map (fun w => String.mk (List.replicate w '-'))) ::
            rows.map (fun r =>
              String.intercalate " | " (List.zipWith ljust r (colWidths headers rows))))) := by
  have hmaps : ∀ r ∈ rows, r.length = (headers.map String.length).length := by
    intro r hr
    rw [List.length_map]
    exact h r hr
  obtain ⟨hlen, hget⟩ := foldl_updWidths_spec rows (headers.map String.length) hmaps
  refine ⟨by rw [colWidths, hlen, List.length_map], ?_, ?_, ?_⟩
  · intro i hi
    rw [colWidths, hget i (by rw [List.length_map]; exact hi),
      getD_map_length headers i hi]
  · unfold render_table colWidths format_row
    simp [zipWith_ljust_self]
  · intro hne
    unfold render_table format_row
    rw [if_neg]
    intro hc
    cases rows with
    | nil => exact hne rfl
    | cons q qs => simp at hc

/-- Witness for C8 at a concrete table. -/
theorem C8_render_table_witness :
    (colWidths ["Date", "Sets"] [["2024-01-01", "3"]]).getD 0 0 = 10 ∧
    render_table ["Date", "Sets"] [] = "Date | Sets" := by
  have h := C8_render_table ["Date", "Sets"] [["2024-01-01", "3"]] (by decide)
  constructor
  · rw [h.2.1 0 (by decide)]
    decide
  · rw [h.2.2.1]
    decide

/-- `format_change` from `cli.py`: `"-"` for `None`; an explicit `"+"` sign
for zero or positive change; negative values keep only their native minus
sign. -/
def format_change (change : Option Int) : String :=
  match change with
  | none => "-"
  | some c => (if 0 ≤ c then "+" else "") ++ toString c

/-- `format_optional` from `cli.py`: `str(value)` or `"-"` for `None`. -/
def format_optional (value : Option Int) : String :=
  match value with
  | some v => toString v
  | none => "-"

/-- `summarize_day` from `cli.py`: the seven cells of one table row. -/
def summarize_day (day : EloDay) : List String :=
  [day.date.isoformat, toString day.sets.length, format_optional day.start,
    format_optional day.end_, format_change day.change, format_optional day.best,
    format_optional day.worst]

/-- What a query command prints: either the fixed "no data" message or a
table (headers and rows, rendered by `render_table`). -/
inductive CmdOutput where
  | noData : CmdOutput
  | table : List String → List (List String) → CmdOutput
deriving DecidableEq, Repr

/-- The header row shared by `cmd_summary` and `cmd_history`. -/
def summaryHeaders : List String :=
  ["Date", "Sets", "Start", "End", "Δ Elo", "Peak", "Low"]

/-- The date filter of `cmd_summary` without `--date`:
`cutoff = date.today() - timedelta(days=args.days - 1)` followed by
`[day for day in days if day.date >= cutoff]`. `n` is the `--days` value
(argparse `int`, default 7); the model covers positive `n`, as the claims
quantify, so that `n - 1 ≥ 0`. -/
def summarySelect (today : PyDate) (n : Nat) (data : EloData) : List EloDay :=
  data.sorted_days.filter (fun day => PyDate.le (subDays today (n - 1)) day.date)

/-- `cmd_summary` from `cli.py`. With `--date` only that day is kept
(`day.date.isoformat() == target`); otherwise (the `--days` default makes
`args.days` never `None`) days from the cutoff on are kept; an empty
selection prints the fixed "no data" message. -/
def cmd_summary (today : PyDate) (dateArg : Option PyDate) (n : Nat)
    (data : EloData) : CmdOutput :=
  let days :=
    match dateArg with
    | some target =>
      data.sorted_days.filter (fun (day : EloDay) => day.date.isoformat == target.isoformat)
    | none => summarySelect today n data
  if days.isEmpty then CmdOutput.noData
  else CmdOutput.table summaryHeaders (days.map summarize_day)

/-- Python list slice `l[s0:]`: a negative start index counts from the end
clamped at 0, a nonnegative one is clamped at `len(l)`. -/
def pySliceFrom {α : Type} (l : List α) (s0 : Int) : List α :=
  l.drop (if s0 < 0 then max 0 ((l.length : Int) + s0) else min s0 (l.length : Int)).toNat

/-- The day selection of `cmd_history`: `days[-args.limit:]` when `--limit`
was given, all days otherwise. -/
def historyDays (limitArg : Option Int) (days : List EloDay) : List EloDay :=
  match limitArg with
  | some limit => pySliceFrom days (-limit)
  | none => days

/-- `cmd_history` from `cli.py`: all days ascending; with `--limit N` the tail
slice `days[-limit:]`; the fixed "no data" message when the store is empty. -/
def cmd_history (limitArg : Option Int) (data : EloData) : CmdOutput :=
  if data.sorted_days.isEmpty then CmdOutput.noData
  else
    CmdOutput.table summaryHeaders
      ((historyDays limitArg data.sorted_days).map summarize_day)

theorem mem_sorted_days (data : EloData)
    (hnd : (data.days.map Prod.fst).Nodup) (day : EloDay) :
    day ∈ data.sorted_days ↔ ∃ k, (k, day) ∈ data.days := by
  rw [sorted_days_eq data hnd]
  constructor
  · intro h
    obtain ⟨⟨k, v⟩, hkv, hsnd⟩ := List.mem_map.mp h
    refine ⟨k, ?_⟩
    have : v = day := hsnd
    rw [← this]
    exact (List.perm_insertionSort keyLeRel data.days).mem_iff.mp hkv
  · rintro ⟨k, hk⟩
    exact List.mem_map.mpr
      ⟨(k, day), (List.perm_insertionSort keyLeRel data.days).mem_iff.mpr hk, rfl⟩

/-- C3 as written is false: the summary filter has no upper bound, so a
stored day strictly after "today" is still displayed. Concretely, with
today 2024-01-10 and `--days 7`, a store holding only 2024-02-01 renders a
table with that future day instead of excluding it. -/
theorem C3_counterexample :
    PyDate.lt ⟨2024, 1, 10⟩ ⟨2024, 2, 1⟩ = true ∧
    cmd_summary ⟨2024, 1, 10⟩ none 7 ⟨[("2024-02-01", ⟨⟨2024, 2, 1⟩, [1500]⟩)]⟩ =
      CmdOutput.table summaryHeaders
        [["2024-02-01", "1", "1500", "1500", "+0", "1500", "1500"]] := by
  decide

/-- C3 (amended): without `--date` and with a positive `--days N`, the summary
displays exactly the stored days whose date is on or after
`today - (N - 1)` — there is no upper bound, so stored days after today are
also displayed — and when no day matches it prints the fixed "no data"
message instead of a table. -/
theorem C3_summary_range (today : PyDate) (n : Nat) (data : EloData)
    (_hn : 1 ≤ n) (hwf : data.WF) :
    (∀ day, day ∈ summarySelect today n data ↔
      ((∃ k, (k, day) ∈ data.days) ∧
        PyDate.le (subDays today (n - 1)) day.date = true)) ∧
    (cmd_summary today none n data = CmdOutput.noData ↔
      summarySelect today n data = []) ∧
    (summarySelect today n data ≠ [] →
      cmd_summary today none n data =
        CmdOutput.table summaryHeaders
          ((summarySelect today n data).map summarize_day)) := by
  refine ⟨?_, ?_, ?_⟩
  · intro day
    unfold summarySelect
    rw [List.mem_filter, mem_sorted_days data hwf.1 day]
  · unfold cmd_summary
    by_cases hc : (summarySelect today n data).isEmpty = true
    · rw [if_pos hc]
      simp [List.isEmpty_iff.mp hc]
    · rw [if_neg hc]
      constructor
      · intro hcontra
        exact absurd hcontra (by simp)
      · intro hnil
        exact absurd (List.isEmpty_iff.mpr hnil) hc
  · intro hne
    unfold cmd_summary
    rw [if_neg (fun hc => hne (List.isEmpty_iff.mp hc))]

/-- Concrete store for the C3 witness: one day inside the 7-day window of
2024-01-10 and one before it. -/
def exStoreC3 : EloData :=
  ⟨[("2024-01-01", ⟨⟨2024, 1, 1⟩, [1400]⟩),
    ("2024-01-05", ⟨⟨2024, 1, 5⟩, [1500]⟩)]⟩

/-- Witness for C3 (amended): on 2024-01-10 with `--days 7` the stored day
2024-01-05 is selected. -/
theorem C3_summary_range_witness :
    (⟨⟨2024, 1, 5⟩, [1500]⟩ : EloDay) ∈ summarySelect ⟨2024, 1, 10⟩ 7 exStoreC3 := by
  have h := (C3_summary_range ⟨2024, 1, 10⟩ 7 exStoreC3 (by decide) (by decide)).1
    ⟨⟨2024, 1, 5⟩, [1500]⟩
  exact h.mpr ⟨⟨"2024-01-05", by decide⟩, by decide⟩

theorem minus_toNat : ('-' : Char).toNat = 45 := rfl

theorem charsLt_cons_same (c : Char) (as bs : List Char) :
    charsLt (c :: as) (c :: bs) = charsLt as bs := by
  simp [charsLt]

theorem charsLt_append (xs : List Char) (as bs : List Char) :
    ∀ ys, xs.length = ys.length →
      (charsLt (xs ++ as) (ys ++ bs) = true ↔
        (charsLt xs ys = true ∨ (xs = ys ∧ charsLt as bs = true))) := by
  induction xs with
  | nil =>
    intro ys hlen
    cases ys with
    | nil => simp [charsLt]
    | cons y ys => simp at hlen
  | cons x xs ih =>
    intro ys hlen
    cases ys with
    | nil => simp at hlen
    | cons y ys =>
      simp only [List.cons_append, charsLt, List.append_eq]
      split_ifs with h1 h2
      · simp
      · have hxy : x ≠ y := by
          intro he
          rw [he] at h2
          exact absurd h2 (lt_irrefl _)
        simp [hxy]
      · have hxy : x = y :=
          char_eq_of_toNat_eq (by omega)
        subst hxy
        rw [ih ys (by simpa using hlen)]
        simp

theorem digitChar_inj {x y : Nat} (h : digitChar x = digitChar y) :
    x % 10 = y % 10 := by
  have := congrArg Char.toNat h
  rw [digitChar_toNat, digitChar_toNat] at this
  omega

theorem pad4_lt {a b : Nat} (ha : a ≤ 9999) (hb : b ≤ 9999) :
    charsLt (pad4 a) (pad4 b) = true ↔ a < b := by
  unfold pad4
  simp only [charsLt, digitChar_toNat]
  split_ifs <;> simp <;> omega

theorem pad4_inj {a b : Nat} (ha : a ≤ 9999) (hb : b ≤ 9999)
    (h : pad4 a = pad4 b) : a = b := by
  unfold pad4 at h
  simp only [List.cons.injEq, and_true] at h
  have h1 := digitChar_inj h.1
  have h2 := digitChar_inj h.2.1
  have h3 := digitChar_inj h.2.2.1
  have h4 := digitChar_inj h.2.2.2
  omega

theorem pad2_lt {a b : Nat} (ha : a ≤ 99) (hb : b ≤ 99) :
    charsLt (pad2 a) (pad2 b) = true ↔ a < b := by
  unfold pad2
  simp only [charsLt, digitChar_toNat]
  split_ifs <;> simp <;> omega

theorem pad2_inj {a b : Nat} (ha : a ≤ 99) (hb : b ≤ 99)
    (h : pad2 a = pad2 b) : a = b := by
  unfold pad2 at h
  simp only [List.cons.injEq, and_true] at h
  have h1 := digitChar_inj h.1
  have h2 := digitChar_inj h.2
  omega

/-- String order agrees with date order on ISO-formatted valid dates (strict
direction): the fixed-width zero-padded digits compare like the numbers they
denote, field by field. -/
theorem pyDateLt_of_pyStrLt {a b : PyDate} (ha : a.isValid = true)
    (hb : b.isValid = true)
    (h : pyStrLt a.isoformat b.isoformat = true) : PyDate.lt a b = true := by
  obtain ⟨y1, m1, d1⟩ := a
  obtain ⟨y2, m2, d2⟩ := b
  have h31a : daysInMonth y1 m1 ≤ 31 := daysInMonth_le_31 y1 m1
  have h31b : daysInMonth y2 m2 ≤ 31 := daysInMonth_le_31 y2 m2
  simp only [PyDate.isValid, Bool.and_eq_true, decide_eq_true_eq] at ha hb
  have h0 : charsLt (pad4 y1 ++ '-' :: (pad2 m1 ++ '-' :: pad2 d1))
      (pad4 y2 ++ '-' :: (pad2 m2 ++ '-' :: pad2 d2)) = true := h
  simp only [PyDate.lt, Bool.or_eq_true, Bool.and_eq_true, decide_eq_true_eq,
    beq_iff_eq]
  rw [charsLt_append (pad4 y1) _ _ (pad4 y2) (by simp [pad4])] at h0
  rcases h0 with hy | ⟨hy, h0⟩
  · have := (pad4_lt (by omega) (by omega)).mp hy
    omega
  · have hyeq : y1 = y2 := pad4_inj (by omega) (by omega) hy
    rw [charsLt_cons_same] at h0
    rw [charsLt_append (pad2 m1) _ _ (pad2 m2) (by simp [pad2])] at h0
    rcases h0 with hm | ⟨hm, h0⟩
    · have := (pad2_lt (by omega) (by omega)).mp hm
      omega
    · have hmeq : m1 = m2 := pad2_inj (by omega) (by omega) hm
      rw [charsLt_cons_same] at h0
      have := (pad2_lt (a := d1) (b := d2) (by omega) (by omega)).mp h0
      omega

/-- The day records produced by `sorted_days` on a well-formed store are in
strictly ascending date order. -/
theorem sorted_days_pairwise_dateLt (data : EloData) (hwf : data.WF) :
    List.Pairwise (fun a b : EloDay => PyDate.lt a.date b.date = true)
      data.sorted_days := by
  obtain ⟨hnd, hiso⟩ := hwf
  rw [sorted_days_eq data hnd]
  have hs := keyLt_sorted_insertionSort (β := EloDay) hnd
  apply List.pairwise_map.mpr
  refine hs.imp_of_mem ?_
  intro a b hma hmb hab
  have ha := hiso a ((List.perm_insertionSort keyLeRel data.days).mem_iff.mp hma)
  have hb := hiso b ((List.perm_insertionSort keyLeRel data.days).mem_iff.mp hmb)
  have hab2 : pyStrLt a.2.date.isoformat b.2.date.isoformat = true := by
    rw [← ha.1, ← hb.1]
    exact hab
  exact pyDateLt_of_pyStrLt ha.2 hb.2 hab2

theorem pySliceFrom_neg {α : Type} (l : List α) (limit : Int) (h : 1 ≤ limit) :
    pySliceFrom l (-limit) = l.drop (l.length - limit.toNat) := by
  unfold pySliceFrom
  rw [if_pos (by omega : (-limit : Int) < 0)]
  congr 1
  omega


theorem pySliceFrom_zero {α : Type} (l : List α) : pySliceFrom l 0 = l := by
  unfold pySliceFrom
  rw [if_neg (by omega : ¬ ((0 : Int) < 0))]
  have hmin : (min (0 : Int) (l.length : Int)).toNat = 0 := by omega
  rw [hmin]
  exact List.drop_zero l

theorem historyDays_some (limit : Int) (days : List EloDay) :
    historyDays (some limit) days = pySliceFrom days (-limit) := rfl

/-- C4 as written is false for the limit value 0: `days[-0:]` is the whole
list, so `history --limit 0` on a one-day store displays that day rather than
the last zero days (an empty row list). -/
theorem C4_counterexample :
    cmd_history (some 0) ⟨[("2024-01-01", ⟨⟨2024, 1, 1⟩, [1500]⟩)]⟩ =
      CmdOutput.table summaryHeaders
        [["2024-01-01", "1", "1500", "1500", "+0", "1500", "1500"]] ∧
    cmd_history (some 0) ⟨[("2024-01-01", ⟨⟨2024, 1, 1⟩, [1500]⟩)]⟩ ≠
      CmdOutput.table summaryHeaders [] := by
  decide

/-- C4 (amended, to positive limits): on a non-empty well-formed store,
`history --limit N` with positive `N` displays exactly the `min N count`
chronologically latest stored days, as the tail of the ascending-by-date day
list (still strictly ascending); without `--limit` it displays all days
ascending; on an empty store it prints the "no data" message. -/
theorem C4_history_limit (data : EloData) (limit : Int) (hwf : data.WF)
    (hne : data.sorted_days ≠ []) (hpos : 1 ≤ limit) :
    cmd_history (some limit) data =
      CmdOutput.table summaryHeaders
        ((data.sorted_days.drop (data.sorted_days.length - limit.toNat)).map
          summarize_day) ∧
    (data.sorted_days.drop (data.sorted_days.length - limit.toNat)).length =
      min limit.toNat data.sorted_days.length ∧
    List.Pairwise (fun a b : EloDay => PyDate.lt a.date b.date = true)
      (data.sorted_days.drop (data.sorted_days.length - limit.toNat)) ∧
    cmd_history none data =
      CmdOutput.table summaryHeaders (data.sorted_days.map summarize_day) ∧
    cmd_history (some limit) (⟨[]⟩ : EloData) = CmdOutput.noData := by
  have hc : data.sorted_days.isEmpty ≠ true := fun hc => hne (List.isEmpty_iff.mp hc)
  refine ⟨?_, ?_, ?_, ?_, rfl⟩
  · unfold cmd_history
    rw [if_neg hc, historyDays_some, pySliceFrom_neg _ _ hpos]
  · rw [List.length_drop]
    omega
  · exact (sorted_days_pairwise_dateLt data hwf).sublist (List.drop_sublist _ _)
  · unfold cmd_history
    rw [if_neg hc]
    rfl

/-- Concrete three-day store for the C4 and C9 witnesses. -/
def exStoreC4 : EloData :=
  ⟨[("2024-01-01", ⟨⟨2024, 1, 1⟩, [1400]⟩),
    ("2024-01-02", ⟨⟨2024, 1, 2⟩, [1450]⟩),
    ("2024-01-03", ⟨⟨2024, 1, 3⟩, [1500]⟩)]⟩

/-- Witness for C4 (amended): `history --limit 2` on a three-day store shows
the two latest days, ascending. -/
theorem C4_history_limit_witness :
    cmd_history (some 2) exStoreC4 =
      CmdOutput.table summaryHeaders
        [["2024-01-02", "1", "1450", "1450", "+0", "1450", "1450"],
         ["2024-01-03", "1", "1500", "1500", "+0", "1500", "1500"]] := by
  have h := C4_history_limit exStoreC4 2 (by decide) (by decide) (by decide)
  rw [h.1]
  decide

/-- C9: `history --limit 0` on a non-empty store displays all days, because
`days[-0:]` is the whole list; more generally a non-positive `--limit` never
restricts the output to at most `limit` rows. -/
theorem C9_history_limit_zero (data : EloData) (h : data.sorted_days ≠ []) :
    cmd_history (some 0) data =
      CmdOutput.table summaryHeaders (data.sorted_days.map summarize_day) ∧
    ∀ limit : Int, limit ≤ 0 → ∀ rows,
      cmd_history (some limit) data = CmdOutput.table summaryHeaders rows →
      ¬((rows.length : Int) ≤ limit) := by
  have hc : data.sorted_days.isEmpty ≠ true := fun hc => h (List.isEmpty_iff.mp hc)
  constructor
  · unfold cmd_history
    rw [if_neg hc, historyDays_some,
      show (-(0 : Int)) = 0 from rfl, pySliceFrom_zero]
  · intro limit hlim rows heq
    unfold cmd_history at heq
    rw [if_neg hc, historyDays_some] at heq
    injection heq with h1 h2
    rcases lt_or_eq_of_le hlim with hlt | heq0
    · intro hcon
      have hnn : (0 : Int) ≤ (rows.length : Int) := Int.ofNat_nonneg _
      omega
    · subst heq0
      rw [show (-(0 : Int)) = 0 from rfl, pySliceFrom_zero] at h2
      intro hcon
      have hpos : 0 < data.sorted_days.length := List.length_pos.mpr h
      rw [← h2] at hcon
      simp only [List.length_map] at hcon
      omega

/-- Witness for C9: `history --limit 0` on the three-day store shows all
three days. -/
theorem C9_history_limit_zero_witness :
    cmd_history (some 0) exStoreC4 =
      CmdOutput.table summaryHeaders (exStoreC4.sorted_days.map summarize_day) :=
  (C9_history_limit_zero exStoreC4 (by decide)).1

/-- ASCII whitespace stripped by Python `str.strip()` (Python also strips
further Unicode space characters; the reset confirmation only meets ASCII
input). -/
def pyIsSpace (c : Char) : Bool :=
  c == ' ' || c == '\t' || c == '\n' || c == '\r' || c == Char.ofNat 11 ||
    c == Char.ofNat 12

/-- Python `str.strip()`: remove leading and trailing whitespace. -/
def pyStrip (s : String) : String :=
  String.mk (((s.data.dropWhile pyIsSpace).reverse.dropWhile pyIsSpace).reverse)

/-- ASCII case mapping of Python `str.lower()` (the confirmation word "yes"
and its variants are ASCII). -/
def pyLowerChar (c : Char) : Char :=
  if 'A' ≤ c && c ≤ 'Z' then Char.ofNat (c.toNat + 32) else c

/-- Python `str.lower()` on ASCII strings. -/
def pyLower (s : String) : String :=
  String.mk (s.data.map pyLowerChar)

/-- The confirmation test of `cmd_reset`:
`input(...).strip()` followed by `confirmation.lower() != "yes"` (negated
here: `true` means the reset proceeds). `line` is the line read from standard
input, without its trailing newline (which `input` already removes). -/
def resetConfirm (line : String) : Bool :=
  pyLower (pyStrip line) == "yes"

/-- `cmd_reset` from `cli.py`, acting on the persisted JSON object: a
non-confirmation leaves the file untouched (no `save_data` call is reached)
and prints the cancellation notice; a confirmation saves `EloData()`, whose
serialization is the empty JSON object. -/
def cmd_reset (line : String) (file : List (String × List Int)) :
    List (String × List Int) × String :=
  if resetConfirm line then ([], "All Elo data has been cleared.")
  else (file, "Reset cancelled.")

/-- C5 as written is false: `cmd_reset` strips the input line before the
case-insensitive comparison, so the line " yes" — which does not match "yes"
case-insensitively — still confirms and overwrites the store. -/
theorem C5_counterexample :
    resetConfirm " yes" = true ∧
    pyLower " yes" ≠ "yes" ∧
    (cmd_reset " yes" [("2024-01-01", [1500])]).1 ≠ [("2024-01-01", [1500])] := by
  decide

/-- C5 (amended): the reset confirms exactly when the line read from standard
input, after stripping leading and trailing whitespace, matches "yes"
case-insensitively; on a non-matching input the store file is left unchanged
and the cancellation notice is printed; on a matching input the file is
overwritten with the empty JSON object, whose byte content is the two
characters braces-open-close. -/
theorem C5_reset (line : String) (file : List (String × List Int)) :
    (resetConfirm line = true ↔ pyLower (pyStrip line) = "yes") ∧
    (resetConfirm line = false → cmd_reset line file = (file, "Reset cancelled.")) ∧
    (resetConfirm line = true →
      cmd_reset line file = ([], "All Elo data has been cleared.") ∧
      jsonText (cmd_reset line file).1 = "\x7b\x7d") := by
  refine ⟨?_, ?_, ?_⟩
  · unfold resetConfirm
    exact beq_iff_eq
  · intro h
    simp [cmd_reset, h]
  · intro h
    have heq : cmd_reset line file = ([], "All Elo data has been cleared.") := by
      simp [cmd_reset, h]
    exact ⟨heq, by rw [heq]; rfl⟩

/-- Witness for C5: "Yes" (after stripping, case-insensitively "yes")
confirms and empties the store; "no" cancels and leaves it unchanged. -/
theorem C5_reset_witness :
    cmd_reset "Yes" [("2024-01-01", [1500])] = ([], "All Elo data has been cleared.") ∧
    cmd_reset "no" [("2024-01-01", [1500])] =
      ([("2024-01-01", [1500])], "Reset cancelled.") :=
  ⟨((C5_reset "Yes" [("2024-01-01", [1500])]).2.2 (by decide)).1,
    (C5_reset "no" [("2024-01-01", [1500])]).2.1 (by decide)⟩

/-- `build_parser` registers the subcommands with
`add_subparsers(dest="command", required=True)`. -/
def buildParserSubcommandRequired : Bool := true

/-- Outcome of a CLI invocation of `main` with no subcommand. -/
inductive MainResult where
  | usageError : Nat → MainResult
  | helpShown : MainResult
deriving DecidableEq, Repr

/-- Behaviour of `main([])` (no subcommand). Because the subparser is
declared `required=True`, argparse reports a usage error and raises
`SystemExit(2)` inside `parse_args`, before the `handler is None` fallback in
`main` (which would print the top-level help and return, exiting 0) can run;
that fallback is reachable only with a non-required subparser. -/
def mainNoSubcommand : MainResult :=
  if buildParserSubcommandRequired then MainResult.usageError 2
  else MainResult.helpShown

/-- C6 evaluated at the failing input: invoking the CLI with no subcommand
exits with the argparse usage error (status 2), not with the top-level help
and status 0 that the spec describes (and that the dead `handler is None`
branch of `main` was written to produce). -/
theorem C6_no_subcommand :
    mainNoSubcommand = MainResult.usageError 2 ∧
    mainNoSubcommand ≠ MainResult.helpShown := by
  decide

/-- Untyped JSON values as produced by `json.load` (numbers restricted to
integers, the only numbers the repository writes; `obj` lists have unique
keys, since `json.load` returns a dict). -/
inductive Json where
  | null : Json
  | bool : Bool → Json
  | num : Int → Json
  | str : String → Json
  | arr : List Json → Json
  | obj : List (String × Json) → Json
deriving Repr

/-- The Python exceptions `load_data` can propagate: `json.JSONDecodeError`
from `json.load`, `ValueError` from `date.fromisoformat`, `AttributeError`
from calling `.items()` or `.get` on a non-dict, `TypeError` from `list()` on
a non-iterable. -/
inductive LoadErr where
  | jsonDecode : LoadErr
  | badDate : LoadErr
  | attrErr : LoadErr
  | typeErr : LoadErr
deriving DecidableEq, Repr

/-- Python `list(x)`: lists copy, strings yield their characters, dicts yield
their keys; `None`, booleans and numbers raise `TypeError`. -/
def pyListOf (j : Json) : Except LoadErr (List Json) :=
  match j with
  | Json.arr l => Except.ok l
  | Json.str s => Except.ok (s.data.map (fun c => Json.str (String.mk [c])))
  | Json.obj kvs => Except.ok (kvs.map (fun kv => Json.str kv.1))
  | _ => Except.error LoadErr.typeErr

/-- Python `dict.get(k, dflt)` on a parsed JSON object. -/
def dictGet (kvs : List (String × Json)) (k : String) (dflt : Json) : Json :=
  match kvs.lookup k with
  | some v => v
  | none => dflt

/-- `EloDay.from_dict` on untyped input: its body is
`list(data.get("sets", []))` — `data.get` requires a dict (an
`AttributeError` is raised on anything else) and never fails on a missing
key, and `list(...)` accepts any iterable, with no check that the items are
integers. -/
def from_dict_dyn (v : Json) : Except LoadErr (List Json) :=
  match v with
  | Json.obj props => pyListOf (dictGet props "sets" (Json.arr []))
  | _ => Except.error LoadErr.attrErr

/-- The loop of `EloData.from_json` on untyped input, exactly as Python
executes it: for each entry, `date.fromisoformat(day_str)` first, then
`EloDay.from_dict`. -/
def fromJsonEntriesDyn :
    List (String × Json) → Except LoadErr (List (String × PyDate × List Json))
  | [] => Except.ok []
  | (k, v) :: rest =>
    match PyDate.fromisoformat k with
    | none => Except.error LoadErr.badDate
    | some day =>
      match from_dict_dyn v with
      | Except.error e => Except.error e
      | Except.ok sets =>
        match fromJsonEntriesDyn rest with
        | Except.error e => Except.error e
        | Except.ok tail => Except.ok ((k, day, sets) :: tail)

/-- `EloData.from_json` on untyped input: `raw.items()` requires a dict
(`AttributeError` otherwise), then the entry loop. -/
def from_json_dyn (raw : Json) : Except LoadErr (List (String × PyDate × List Json)) :=
  match raw with
  | Json.obj entries => fromJsonEntriesDyn entries
  | _ => Except.error LoadErr.attrErr

/-- `load_data` on the file contents: a missing file yields an empty store;
a present file either fails JSON decoding (`some (Except.error ())`) or
parses to a JSON value handed to `from_json`. -/
def load_data_dyn (file : Option (Except Unit Json)) :
    Except LoadErr (List (String × PyDate × List Json)) :=
  match file with
  | none => Except.ok []
  | some (Except.error _) => Except.error LoadErr.jsonDecode
  | some (Except.ok j) => from_json_dyn j

/-- Shape of a day value that `from_json` accepts without raising: a dict
whose "sets" entry (defaulting to an empty list) is iterable. -/
def dayValueOk (v : Json) : Bool :=
  match v with
  | Json.obj props =>
    (match dictGet props "sets" (Json.arr []) with
     | Json.arr _ => true
     | Json.str _ => true
     | Json.obj _ => true
     | _ => false)
  | _ => false

/-- Exactly when `from_json` runs without raising. -/
def loadAccepts (raw : Json) : Bool :=
  match raw with
  | Json.obj entries =>
    entries.all (fun kv => (PyDate.fromisoformat kv.1).isSome && dayValueOk kv.2)
  | _ => false

/-- Modelled from the spec (section 6 file format, for the counterexample
only): a JSON object whose keys are ISO dates and whose values are objects of
exactly the form with a single "sets" key holding an array of integers. -/
def specFileFormat (raw : Json) : Bool :=
  match raw with
  | Json.obj entries =>
    entries.all (fun kv =>
      (PyDate.fromisoformat kv.1).isSome &&
      (match kv.2 with
       | Json.obj [(k2, Json.arr items)] =>
         k2 == "sets" &&
           items.all (fun it => match it with | Json.num _ => true | _ => false)
       | _ => false))
  | _ => false

/-- C7 as written is false in its "exactly when" direction: the file
`2024-01-01 ↦ sets ["oops"]` has a malformed day/int structure (a non-integer
sets entry), yet `load_data` silently accepts it instead of raising. -/
theorem C7_counterexample :
    specFileFormat
      (Json.obj [("2024-01-01", Json.obj [("sets", Json.arr [Json.str "oops"])])]) =
      false ∧
    load_data_dyn
      (some (Except.ok
        (Json.obj [("2024-01-01", Json.obj [("sets", Json.arr [Json.str "oops"])])]))) =
      Except.ok [("2024-01-01", ⟨2024, 1, 1⟩, [Json.str "oops"])] := by
  constructor
  · rfl
  · rfl

theorem except_isOk_ok {ε α : Type} (a : α) :
    (Except.ok a : Except ε α).isOk = true := rfl

theorem except_isOk_error {ε α : Type} (e : ε) :
    (Except.error e : Except ε α).isOk = false := rfl

theorem from_dict_dyn_isOk (v : Json) : (from_dict_dyn v).isOk = dayValueOk v := by
  cases v with
  | obj props =>
    simp only [from_dict_dyn, dayValueOk]
    cases dictGet props "sets" (Json.arr []) <;> rfl
  | null => rfl
  | bool b => rfl
  | num n => rfl
  | str s => rfl
  | arr l => rfl

theorem fromJsonEntriesDyn_isOk : ∀ entries : List (String × Json),
    (fromJsonEntriesDyn entries).isOk =
      entries.all (fun kv => (PyDate.fromisoformat kv.1).isSome && dayValueOk kv.2) := by
  intro entries
  induction entries with
  | nil => rfl
  | cons kv rest ih =>
    obtain ⟨k, v⟩ := kv
    simp only [fromJsonEntriesDyn, List.all_cons]
    cases hk : PyDate.fromisoformat k with
    | none => rfl
    | some day =>
      rw [← from_dict_dyn_isOk]
      cases hd : from_dict_dyn v with
      | error e => simp [except_isOk_error]
      | ok sets =>
        cases hrest : fromJsonEntriesDyn rest with
        | error e =>
          rw [hrest] at ih
          simp [except_isOk_error, except_isOk_ok, ← ih]
        | ok tail =>
          rw [hrest] at ih
          simp [except_isOk_error, except_isOk_ok, ← ih]

/-- C7 (amended): `load_data` returns an empty store when the backing file is
missing (not an error); it raises exactly when the file exists and contains
invalid JSON, a top-level value that is not an object, a key that is not a
valid ISO date, a day value that is not a dict, or a "sets" value that is not
iterable. A missing "sets" key (defaulting to an empty list) and non-integer
"sets" items are accepted silently. -/
theorem C7_load_errors :
    load_data_dyn none = Except.ok [] ∧
    (∀ e : Unit, load_data_dyn (some (Except.error e)) =
      Except.error LoadErr.jsonDecode) ∧
    (∀ raw : Json, (from_json_dyn raw).isOk = loadAccepts raw) ∧
    (∀ raw : Json, (load_data_dyn (some (Except.ok raw))).isOk = loadAccepts raw) := by
  refine ⟨rfl, fun e => rfl, ?_, ?_⟩
  · intro raw
    cases raw with
    | obj entries => exact fromJsonEntriesDyn_isOk entries
    | null => rfl
    | bool b => rfl
    | num n => rfl
    | str s => rfl
    | arr l => rfl
  · intro raw
    cases raw with
    | obj entries => exact fromJsonEntriesDyn_isOk entries
    | null => rfl
    | bool b => rfl
    | num n => rfl
    | str s => rfl
    | arr l => rfl

/-- File-system state visible to the storage layer: whether the data
directory exists, and the contents of the backing file. -/
structure FS where
  dirExists : Bool
  file : Option (Except Unit Json)
deriving Repr

/-- `ensure_storage_dir`: `path.mkdir(parents=True, exist_ok=True)` — creates
the directory if missing, no-op otherwise. -/
def ensure_storage_dir (fs : FS) : FS :=
  { fs with dirExists := true }

/-- `load_data` including its file-system side effect: it calls
`ensure_storage_dir(path.parent)` before checking whether the file exists. -/
def load_data_fs (fs : FS) :
    FS × Except LoadErr (List (String × PyDate × List Json)) :=
  (ensure_storage_dir fs, load_data_dyn fs.file)

/-- State effect of `cmd_summary`: it calls `load_data()` and never
`save_data`. -/
def cmd_summary_fs (fs : FS) : FS :=
  (load_data_fs fs).1

/-- State effect of `cmd_history`: it calls `load_data()` and never
`save_data`. -/
def cmd_history_fs (fs : FS) : FS :=
  (load_data_fs fs).1

/-- C10: `load_data` creates the data directory before reading, so every
command that loads — including the read-only summary and history commands,
and a load on a missing file — leaves the storage directory in existence
without touching the file; directory creation is not confined to `save`. -/
theorem C10_load_creates_dir (fs : FS) :
    (load_data_fs fs).1.dirExists = true ∧
    (load_data_fs fs).1.file = fs.file ∧
    cmd_summary_fs fs = { fs with dirExists := true } ∧
    cmd_history_fs fs = { fs with dirExists := true } ∧
    (fs.file = none → (load_data_fs fs).2 = Except.ok []) := by
  refine ⟨rfl, rfl, rfl, rfl, fun h => ?_⟩
  show load_data_dyn fs.file = Except.ok []
  rw [h]
  rfl

/-- Witness for C10: starting with no directory and no file, a load creates
the directory and returns the empty store. -/
theorem C10_load_creates_dir_witness :
    (load_data_fs ⟨false, none⟩).1.dirExists = true ∧
    (load_data_fs ⟨false, none⟩).2 = Except.ok [] :=
  ⟨(C10_load_creates_dir ⟨false, none⟩).1,
    (C10_load_creates_dir ⟨false, none⟩).2.2.2.2 rfl⟩

end EloTracker
